import Mathlib

/-!
Shallow embedding of `src/task_programming.py`, a small in-memory
library-management program, together with proofs settling the claims of its
specification.

Modelling conventions:
* `Book` and `Member` are records of their Python constructor fields; equality
  is structural (field-tuple) equality, the equality notion the specification
  fixes for matching books and members across the Inventory and the Ledger.
* Python's `list.remove` (remove the first equal element, raise `ValueError`
  when absent) is embedded as `removeFirst`, returning `Option`; `none` is the
  raised error.
* The Python `dict` backing `BasicLoanService.loans` is embedded as an
  association list with unique keys (keys are inserted only when absent, so
  uniqueness is maintained by construction); lookup and update act on the
  first matching key, which coincides with dict semantics.
* `print` calls carry no state; operations instead return a `Bool` flag that
  records which branch ran (`true` = the success message, `false` = the
  failure/unavailable message). The notifier variants only print, so they are
  embedded as an inert channel tag.
-/

/-- A book record: `Book.__init__(self, title, author, year)`. -/
structure Book where
  title : String
  author : String
  year : Int
deriving DecidableEq, Repr

/-- A library member record: `Member.__init__(self, name, member_id)`. -/
structure Member where
  name : String
  member_id : String
deriving DecidableEq, Repr

/-- Field-tuple ("value") equality on books: same title, author and year. -/
def sameFields (a b : Book) : Prop :=
  a.title = b.title ∧ a.author = b.author ∧ a.year = b.year

instance (a b : Book) : Decidable (sameFields a b) := by
  unfold sameFields; infer_instance

/-- The notification channel: `EmailNotification` / `SMSNotification`.
Both variants only print a message; no state is involved. -/
inductive NotificationChannel where
  | email
  | sms
deriving DecidableEq, Repr

/-- Python `list.remove(b)`: remove the first element equal to `b`;
`none` models the `ValueError` raised when no equal element is present. -/
def removeFirst : List Book → Book → Option (List Book)
  | [], _ => none
  | x :: xs, b => if x = b then some xs else (removeFirst xs b).map (fun ys => x :: ys)

/-- `LibraryInventory`: owns the ordered sequence of available books. -/
structure LibraryInventory where
  books : List Book
deriving DecidableEq, Repr

namespace LibraryInventory

/-- `LibraryInventory.add_book`: append to the available sequence. -/
def add_book (inv : LibraryInventory) (b : Book) : LibraryInventory :=
  { books := inv.books ++ [b] }

/-- `LibraryInventory.remove_book`: `self.books.remove(book)`;
`none` models the `ValueError` when `book` is absent. -/
def remove_book (inv : LibraryInventory) (b : Book) : Option LibraryInventory :=
  (removeFirst inv.books b).map (fun l => { books := l })

/-- `LibraryInventory.list_books`: the "title by author" strings in order. -/
def list_books (inv : LibraryInventory) : List String :=
  inv.books.map (fun b => b.title ++ " by " ++ b.author)

end LibraryInventory

/-- Lookup in the loan dict: `self.loans[member]`, `none` when
`member not in self.loans`. -/
def lookupLoans : List (Member × List Book) → Member → Option (List Book)
  | [], _ => none
  | (k, l) :: rest, m => if k = m then some l else lookupLoans rest m

/-- Update the entry of the (first) matching key in the loan dict. -/
def updateEntry : List (Member × List Book) → Member → (List Book → List Book) →
    List (Member × List Book)
  | [], _, _ => []
  | (k, l) :: rest, m, f =>
    if k = m then (k, f l) :: rest else (k, l) :: updateEntry rest m f

/-- `BasicLoanService`: owns the dict from members to their loaned books. -/
structure BasicLoanService where
  loans : List (Member × List Book)
deriving DecidableEq, Repr

namespace BasicLoanService

/-- `BasicLoanService.loan_book`: create an empty entry when the member has
none, then append the book to the member's sequence. -/
def loan_book (svc : BasicLoanService) (m : Member) (b : Book) : BasicLoanService :=
  match lookupLoans svc.loans m with
  | none => { loans := svc.loans ++ [(m, [b])] }
  | some _ => { loans := updateEntry svc.loans m (fun l => l ++ [b]) }

/-- `BasicLoanService.return_book`: when the member has an entry containing the
book, remove the first match (flag `true`, the "returned" message); otherwise
leave the dict unchanged (flag `false`, the "does not have" message). -/
def return_book (svc : BasicLoanService) (m : Member) (b : Book) :
    BasicLoanService × Bool :=
  match lookupLoans svc.loans m with
  | some l =>
    if b ∈ l then ({ loans := updateEntry svc.loans m (fun l₀ => l₀.erase b) }, true)
    else (svc, false)
  | none => (svc, false)

/-- Whether the ledger currently records `b` as loaned to `m`
(the `member in self.loans and book in self.loans[member]` test). -/
def hasLoan (svc : BasicLoanService) (m : Member) (b : Book) : Bool :=
  match lookupLoans svc.loans m with
  | some l => decide (b ∈ l)
  | none => false

end BasicLoanService

/-- `LibraryService`: the high-level service over an inventory, a loan
service and a notifier (constructor injection). -/
structure LibraryService where
  inventory : LibraryInventory
  loan_service : BasicLoanService
  notifier : NotificationChannel
deriving DecidableEq, Repr

namespace LibraryService

/-- `LibraryService.add_book_to_inventory`: delegate to `Inventory.add_book`. -/
def add_book_to_inventory (svc : LibraryService) (b : Book) : LibraryService :=
  { svc with inventory := svc.inventory.add_book b }

/-- `LibraryService.loan_book_to_member`: when the book is in the inventory,
loan it in the ledger, remove it from the inventory, notify (flag `true`);
otherwise print the unavailable message and change nothing (flag `false`).
The outer `none` models the `ValueError` of `remove_book` propagating. -/
def loan_book_to_member (svc : LibraryService) (m : Member) (b : Book) :
    Option (LibraryService × Bool) :=
  if b ∈ svc.inventory.books then
    match svc.inventory.remove_book b with
    | some inv =>
      some ({ inventory := inv, loan_service := svc.loan_service.loan_book m b,
              notifier := svc.notifier }, true)
    | none => none
  else
    some (svc, false)

/-- `LibraryService.return_book_from_member`: unconditionally delegate to
`return_book`, then unconditionally restock the book, then notify. The flag is
the ledger's flag (`false` = the ledger reported "does not have"). -/
def return_book_from_member (svc : LibraryService) (m : Member) (b : Book) :
    LibraryService × Bool :=
  let r := svc.loan_service.return_book m b
  ({ svc with inventory := svc.inventory.add_book b, loan_service := r.1 }, r.2)

end LibraryService

/-- The operations a client can invoke on the service. -/
inductive Op where
  | add (b : Book)
  | loan (m : Member) (b : Book)
  | ret (m : Member) (b : Book)
deriving DecidableEq, Repr

/-- One service call. The `none` branch of `loan_book_to_member` (the
propagated `ValueError`) is proved unreachable below; `step` keeps the state
unchanged there so that it is total. -/
def step (svc : LibraryService) : Op → LibraryService
  | Op.add b => svc.add_book_to_inventory b
  | Op.loan m b =>
    match svc.loan_book_to_member m b with
    | some p => p.1
    | none => svc
  | Op.ret m b => (svc.return_book_from_member m b).1

/-- Run a sequence of service calls. -/
def run (svc : LibraryService) : List Op → LibraryService
  | [] => svc
  | op :: ops => run (step svc op) ops

/-- The initial system state: empty inventory, empty ledger
(the demo wires an `EmailNotification`). -/
def libInit : LibraryService :=
  { inventory := { books := [] }, loan_service := { loans := [] },
    notifier := NotificationChannel.email }

/-- Total number of occurrences of `b` in all loan sequences of the ledger. -/
def ledgerCount (L : List (Member × List Book)) (b : Book) : Nat :=
  (L.map (fun p => p.2.count b)).sum

/-- Total number of occurrences of `b` in the system: available copies plus
loaned copies. -/
def occ (svc : LibraryService) (b : Book) : Nat :=
  svc.inventory.books.count b + ledgerCount svc.loan_service.loans b

/-- Guard singling out the well-behaved calls: an added book is fresh (not
currently available nor on loan), and a return is only made by a member the
ledger records as holding the book. Loans are always well-behaved. -/
def okOp (svc : LibraryService) : Op → Bool
  | Op.add b => occ svc b == 0
  | Op.loan _ _ => true
  | Op.ret m b => svc.loan_service.hasLoan m b

/-- A sequence of calls is good from `svc` when every call is well-behaved in
the state where it executes. -/
def goodFrom (svc : LibraryService) : List Op → Bool
  | [] => true
  | op :: ops => okOp svc op && goodFrom (step svc op) ops

/-- No book is simultaneously in the inventory and in some member's loan
sequence (the §3 Inventory invariant). -/
def DisjointInvLedger (svc : LibraryService) : Prop :=
  ∀ b m l, b ∈ svc.inventory.books →
    lookupLoans svc.loan_service.loans m = some l → b ∉ l

/-- The demo books and members of the script (lines 140–146 of the source). -/
def book1 : Book := { title := "Clean Code", author := "Robert C. Martin", year := 2008 }

def book2 : Book := { title := "The Pragmatic Programmer", author := "Andrew Hunt", year := 1999 }

def member1 : Member := { name := "Alice", member_id := "M001" }

def member2 : Member := { name := "Bob", member_id := "M002" }

/-! ### Basic lemmas about the embedded operations -/

theorem removeFirst_of_mem (l : List Book) (b : Book) (h : b ∈ l) :
    removeFirst l b = some (l.erase b) := by
  induction l with
  | nil => cases h
  | cons x xs ih =>
    by_cases hx : x = b
    · subst hx
      simp [removeFirst, List.erase_cons]
    · have hb : b ∈ xs := by
        cases h with
        | head => exact absurd rfl hx
        | tail _ h => exact h
      simp [removeFirst, hx, ih hb, List.erase_cons, beq_iff_eq]

theorem removeFirst_of_not_mem (l : List Book) (b : Book) (h : b ∉ l) :
    removeFirst l b = none := by
  induction l with
  | nil => rfl
  | cons x xs ih =>
    have hx : x ≠ b := fun e => h (e ▸ List.mem_cons_self x xs)
    have hb : b ∉ xs := fun e => h (List.mem_cons_of_mem x e)
    simp [removeFirst, hx, ih hb]

theorem remove_book_of_mem (inv : LibraryInventory) (b : Book) (h : b ∈ inv.books) :
    inv.remove_book b = some { books := inv.books.erase b } := by
  simp [LibraryInventory.remove_book, removeFirst_of_mem inv.books b h]

theorem remove_book_of_not_mem (inv : LibraryInventory) (b : Book) (h : b ∉ inv.books) :
    inv.remove_book b = none := by
  simp [LibraryInventory.remove_book, removeFirst_of_not_mem inv.books b h]

theorem loan_book_to_member_of_mem (svc : LibraryService) (m : Member) (b : Book)
    (h : b ∈ svc.inventory.books) :
    svc.loan_book_to_member m b =
      some ({ inventory := { books := svc.inventory.books.erase b },
              loan_service := svc.loan_service.loan_book m b,
              notifier := svc.notifier }, true) := by
  simp [LibraryService.loan_book_to_member, h, remove_book_of_mem svc.inventory b h]

theorem loan_book_to_member_of_not_mem (svc : LibraryService) (m : Member) (b : Book)
    (h : b ∉ svc.inventory.books) :
    svc.loan_book_to_member m b = some (svc, false) := by
  simp [LibraryService.loan_book_to_member, h]

theorem lookupLoans_updateEntry_self (L : List (Member × List Book)) (m : Member)
    (l : List Book) (f : List Book → List Book) (h : lookupLoans L m = some l) :
    lookupLoans (updateEntry L m f) m = some (f l) := by
  induction L with
  | nil => simp [lookupLoans] at h
  | cons p rest ih =>
    obtain ⟨k, l₀⟩ := p
    by_cases hk : k = m
    · subst hk
      simp [lookupLoans] at h
      subst h
      simp [updateEntry, lookupLoans]
    · simp [lookupLoans, hk] at h
      simp [updateEntry, lookupLoans, hk, ih h]

theorem ledgerCount_append (L : List (Member × List Book)) (m : Member)
    (l : List Book) (b : Book) :
    ledgerCount (L ++ [(m, l)]) b = ledgerCount L b + l.count b := by
  simp [ledgerCount]

theorem ledgerCount_updateEntry (L : List (Member × List Book)) (m : Member)
    (l : List Book) (f : List Book → List Book) (b : Book)
    (h : lookupLoans L m = some l) :
    ledgerCount (updateEntry L m f) b + l.count b =
      ledgerCount L b + (f l).count b := by
  induction L with
  | nil => simp [lookupLoans] at h
  | cons p rest ih =>
    obtain ⟨k, l₀⟩ := p
    by_cases hk : k = m
    · subst hk
      simp [lookupLoans] at h
      subst h
      simp [updateEntry, ledgerCount]
      omega
    · simp [lookupLoans, hk] at h
      have := ih h
      simp [updateEntry, hk, ledgerCount] at this ⊢
      omega

theorem count_le_ledgerCount (L : List (Member × List Book)) (m : Member)
    (l : List Book) (b : Book) (h : lookupLoans L m = some l) :
    l.count b ≤ ledgerCount L b := by
  induction L with
  | nil => simp [lookupLoans] at h
  | cons p rest ih =>
    obtain ⟨k, l₀⟩ := p
    by_cases hk : k = m
    · subst hk
      simp [lookupLoans] at h
      subst h
      simp [ledgerCount]
    · simp [lookupLoans, hk] at h
      have := ih h
      simp [ledgerCount] at this ⊢
      omega

theorem lookupLoans_loan_book (svc : BasicLoanService) (m : Member) (b : Book) :
    ∃ l, lookupLoans (svc.loan_book m b).loans m = some l ∧ b ∈ l := by
  unfold BasicLoanService.loan_book
  cases hl : lookupLoans svc.loans m with
  | none =>
    refine ⟨[b], ?_, List.mem_singleton_self b⟩
    have : ∀ L, lookupLoans L m = none → lookupLoans (L ++ [(m, [b])]) m = some [b] := by
      intro L
      induction L with
      | nil => intro _; simp [lookupLoans]
      | cons p rest ih =>
        obtain ⟨k, l₀⟩ := p
        by_cases hk : k = m
        · subst hk; simp [lookupLoans]
        · intro h
          simp [lookupLoans, hk] at h ⊢
          exact ih h
    simpa using this svc.loans hl
  | some l =>
    exact ⟨l ++ [b], by simpa using lookupLoans_updateEntry_self svc.loans m l _ hl,
      by simp⟩

theorem ledgerCount_loan_book (svc : BasicLoanService) (m : Member) (b₀ b : Book) :
    ledgerCount (svc.loan_book m b₀).loans b =
      ledgerCount svc.loans b + if b₀ = b then 1 else 0 := by
  unfold BasicLoanService.loan_book
  cases hl : lookupLoans svc.loans m with
  | none =>
    simp [ledgerCount_append, List.count_singleton']
  | some l =>
    have h := ledgerCount_updateEntry svc.loans m l (fun l₀ => l₀ ++ [b₀]) b hl
    simp [List.count_singleton'] at h
    simp
    omega

theorem return_book_of_no_loan (svc : BasicLoanService) (m : Member) (b : Book)
    (h : svc.hasLoan m b = false) : svc.return_book m b = (svc, false) := by
  unfold BasicLoanService.hasLoan at h
  unfold BasicLoanService.return_book
  cases hl : lookupLoans svc.loans m with
  | none => rfl
  | some l =>
    rw [hl] at h
    simp at h
    simp [h]

theorem return_book_of_loan (svc : BasicLoanService) (m : Member) (b : Book)
    (l : List Book) (hl : lookupLoans svc.loans m = some l) (hb : b ∈ l) :
    svc.return_book m b =
      ({ loans := updateEntry svc.loans m (fun l₀ => l₀.erase b) }, true) := by
  unfold BasicLoanService.return_book
  rw [hl]
  simp [hb]

theorem ledgerCount_return_book (svc : BasicLoanService) (m : Member) (b b' : Book)
    (l : List Book) (hl : lookupLoans svc.loans m = some l) (hb : b ∈ l) :
    ledgerCount (svc.return_book m b).1.loans b' + (if b = b' then 1 else 0) =
      ledgerCount svc.loans b' := by
  rw [return_book_of_loan svc m b l hl hb]
  have h := ledgerCount_updateEntry svc.loans m l (fun l₀ => l₀.erase b) b' hl
  by_cases hbb : b = b'
  · subst hbb
    have hpos : 1 ≤ l.count b := List.count_pos_iff.mpr hb
    have hle : l.count b ≤ ledgerCount svc.loans b := count_le_ledgerCount svc.loans m l b hl
    have herase : (l.erase b).count b = l.count b - 1 := List.count_erase_self b l
    simp only [herase] at h
    simp
    omega
  · have herase : (l.erase b).count b' = l.count b' := List.count_erase_of_ne (Ne.symm hbb) l
    simp only [herase] at h
    simp [hbb]
    omega

/-! ### Claims -/

/-- C2: for every member `m`, book `b` and prior state — including states where
`b` is not recorded as loaned to `m` — after `return_book_from_member m b` the
book `b` is present in the inventory's available sequence, and its
"title by author" line is present in `list_books`. -/
theorem claim_C2_return_always_restocks (svc : LibraryService) (m : Member) (b : Book) :
    b ∈ (svc.return_book_from_member m b).1.inventory.books ∧
      (b.title ++ " by " ++ b.author) ∈
        (svc.return_book_from_member m b).1.inventory.list_books := by
  unfold LibraryService.return_book_from_member LibraryInventory.add_book
    LibraryInventory.list_books
  constructor
  · simp
  · exact List.mem_map.mpr ⟨b, by simp, rfl⟩

/-- C4: when `b` is not in the inventory's available sequence,
`loan_book_to_member m b` reports unavailability (flag `false`) and returns the
state unchanged — neither the inventory nor the ledger is mutated. -/
theorem claim_C4_unavailable_no_mutation (svc : LibraryService) (m : Member) (b : Book)
    (h : b ∉ svc.inventory.books) :
    svc.loan_book_to_member m b = some (svc, false) :=
  loan_book_to_member_of_not_mem svc m b h

/-- C4 witness: loaning `book1` from the empty library reports unavailability
and leaves the state unchanged. -/
theorem claim_C4_witness :
    libInit.loan_book_to_member member1 book1 = some (libInit, false) :=
  claim_C4_unavailable_no_mutation libInit member1 book1 (by decide)

/-- C8: the error branch of inventory removal inside `loan_book_to_member` is
unreachable: for every state, member and book, the call never propagates the
`ValueError` of `remove_book` (modelled as `none`), because the membership
check precedes the removal. -/
theorem claim_C8_remove_error_unreachable (svc : LibraryService) (m : Member) (b : Book) :
    (svc.loan_book_to_member m b).isSome = true := by
  by_cases h : b ∈ svc.inventory.books
  · rw [loan_book_to_member_of_mem svc m b h]
    rfl
  · rw [loan_book_to_member_of_not_mem svc m b h]
    rfl

/-- C7: book equality is field-tuple ("value") equality on title/author/year;
`remove_book` removes the first value-equal match from the available sequence
when one is present, and fails with the runtime error (`none`) when no
value-equal match is present. -/
theorem claim_C7_remove_first_value_match (inv : LibraryInventory) (b : Book) :
    (∀ b', sameFields b b' ↔ b = b') ∧
    ((∃ b' ∈ inv.books, sameFields b b') →
      inv.remove_book b = some { books := inv.books.erase b } ∧
      ∃ l₁ l₂, b ∉ l₁ ∧ inv.books = l₁ ++ b :: l₂ ∧ inv.books.erase b = l₁ ++ l₂) ∧
    ((¬ ∃ b' ∈ inv.books, sameFields b b') → inv.remove_book b = none) := by
  have hsf : ∀ b' : Book, sameFields b b' ↔ b = b' := by
    intro b'
    unfold sameFields
    constructor
    · rintro ⟨h1, h2, h3⟩
      cases b; cases b'
      simp_all
    · rintro rfl
      exact ⟨rfl, rfl, rfl⟩
  refine ⟨hsf, ?_, ?_⟩
  · rintro ⟨b', hmem, hsame⟩
    have hb : b ∈ inv.books := by
      have := (hsf b').mp hsame
      exact this ▸ hmem
    exact ⟨remove_book_of_mem inv b hb, List.exists_erase_eq hb⟩
  · intro hnone
    have hb : b ∉ inv.books := fun hmem => hnone ⟨b, hmem, (hsf b).mpr rfl⟩
    exact remove_book_of_not_mem inv b hb

/-- C7 witness: removing `book1` from `[book1, book2]` yields `[book2]`;
removing `book1` from `[book2]` raises (returns `none`). -/
theorem claim_C7_witness :
    LibraryInventory.remove_book { books := [book1, book2] } book1 =
      some { books := [book2] } ∧
    LibraryInventory.remove_book { books := [book2] } book1 = none := by
  constructor
  · exact (((claim_C7_remove_first_value_match { books := [book1, book2] } book1).2.1
      ⟨book1, by simp, by constructor <;> simp⟩).1).trans (by decide)
  · exact (claim_C7_remove_first_value_match { books := [book2] } book1).2.2 (by decide)

/-- C6: when the member has no ledger entry or the book is not in the member's
loan sequence, the ledger's `return_book` signals no-such-loan (flag `false`)
and leaves the ledger completely unchanged; when the book is present, it
removes exactly the first match from the member's sequence. -/
theorem claim_C6_ledger_return_semantics (svc : BasicLoanService) (m : Member) (b : Book) :
    (svc.hasLoan m b = false → svc.return_book m b = (svc, false)) ∧
    (∀ l, lookupLoans svc.loans m = some l → b ∈ l →
      svc.return_book m b =
        ({ loans := updateEntry svc.loans m (fun l₀ => l₀.erase b) }, true) ∧
      ∃ l₁ l₂, b ∉ l₁ ∧ l = l₁ ++ b :: l₂ ∧
        lookupLoans (svc.return_book m b).1.loans m = some (l₁ ++ l₂)) := by
  refine ⟨return_book_of_no_loan svc m b, ?_⟩
  intro l hl hb
  have heq := return_book_of_loan svc m b l hl hb
  refine ⟨heq, ?_⟩
  obtain ⟨l₁, l₂, hnot, hsplit, herase⟩ := List.exists_erase_eq hb
  refine ⟨l₁, l₂, hnot, hsplit, ?_⟩
  rw [heq]
  have := lookupLoans_updateEntry_self svc.loans m l (fun l₀ => l₀.erase b) hl
  simpa [herase] using this

/-- C6 witness: with Alice's ledger entry `[book1]`, a return by Bob reports
no-such-loan and changes nothing, and a return by Alice removes the loan. -/
theorem claim_C6_witness :
    BasicLoanService.return_book { loans := [(member1, [book1])] } member2 book1 =
      ({ loans := [(member1, [book1])] }, false) ∧
    BasicLoanService.return_book { loans := [(member1, [book1])] } member1 book1 =
      ({ loans := [(member1, [])] }, true) := by
  constructor
  · exact (claim_C6_ledger_return_semantics { loans := [(member1, [book1])] }
      member2 book1).1 (by decide)
  · exact (((claim_C6_ledger_return_semantics { loans := [(member1, [book1])] }
      member1 book1).2 [book1] (by decide) (by decide)).1).trans (by decide)

/-- C3: from a state where the inventory does not contain `b` and `b` is not
recorded as loaned to `m`, one `return_book_from_member m b` leaves one copy of
`b` in the available sequence and a second identical call leaves two copies:
the operation is not idempotent. -/
theorem claim_C3_return_not_idempotent (svc : LibraryService) (m : Member) (b : Book)
    (h1 : b ∉ svc.inventory.books) (h2 : svc.loan_service.hasLoan m b = false) :
    (svc.return_book_from_member m b).1.inventory.books.count b = 1 ∧
    ((svc.return_book_from_member m b).1.return_book_from_member m b).1.inventory.books.count b = 2 := by
  have hr := return_book_of_no_loan svc.loan_service m b h2
  have hc0 : svc.inventory.books.count b = 0 := List.count_eq_zero.mpr h1
  have hs1 : (svc.return_book_from_member m b).1 =
      { svc with inventory := svc.inventory.add_book b } := by
    simp [LibraryService.return_book_from_member, hr]
  have hcount1 : (svc.return_book_from_member m b).1.inventory.books.count b = 1 := by
    rw [hs1]
    simp [LibraryInventory.add_book, hc0]
  refine ⟨hcount1, ?_⟩
  have hr2 : ((svc.return_book_from_member m b).1.loan_service.return_book m b) =
      ((svc.return_book_from_member m b).1.loan_service, false) := by
    rw [hs1]
    exact return_book_of_no_loan svc.loan_service m b h2
  simp [LibraryService.return_book_from_member, hr2, LibraryInventory.add_book]
  exact hc0

/-- C3 witness: two returns of `book1` by Alice from the empty library leave
two copies of `book1` in the inventory. -/
theorem claim_C3_witness :
    (libInit.return_book_from_member member1 book1).1.inventory.books.count book1 = 1 ∧
    ((libInit.return_book_from_member member1 book1).1.return_book_from_member
        member1 book1).1.inventory.books.count book1 = 2 :=
  claim_C3_return_not_idempotent libInit member1 book1 (by decide) (by decide)

/-- C5 counterexample: with two copies of `book1` available, the loan to Alice
succeeds (flag `true`) yet `book1` is still present in the inventory
afterwards, refuting "after a successful loan the book is absent from the
inventory" as universally stated. -/
theorem claim_C5_counterexample :
    LibraryService.loan_book_to_member
        { inventory := { books := [book1, book1] }, loan_service := { loans := [] },
          notifier := NotificationChannel.email } member1 book1 =
      some ({ inventory := { books := [book1] },
              loan_service := { loans := [(member1, [book1])] },
              notifier := NotificationChannel.email }, true) ∧
    book1 ∈ [book1] := by
  constructor
  · decide
  · decide

/-- C5 (amended): if `b` occurs exactly once in the available sequence, then
`loan_book_to_member m b` succeeds, afterwards `b` is absent from the
available sequence, and `b` is present in the loan sequence recorded for `m`
in the ledger. -/
theorem claim_C5_loan_moves_book (svc : LibraryService) (m : Member) (b : Book)
    (h : svc.inventory.books.count b = 1) :
    svc.loan_book_to_member m b =
      some ({ inventory := { books := svc.inventory.books.erase b },
              loan_service := svc.loan_service.loan_book m b,
              notifier := svc.notifier }, true) ∧
    b ∉ (svc.inventory.books.erase b) ∧
    ∃ l, lookupLoans (svc.loan_service.loan_book m b).loans m = some l ∧ b ∈ l := by
  have hmem : b ∈ svc.inventory.books := List.count_pos_iff.mp (by omega)
  refine ⟨loan_book_to_member_of_mem svc m b hmem, ?_, lookupLoans_loan_book _ m b⟩
  have : (svc.inventory.books.erase b).count b = 0 := by
    rw [List.count_erase_self]
    omega
  exact List.count_eq_zero.mp this

/-- C5 witness: with exactly one copy of `book2`, the loan to Bob empties the
inventory and records the loan. -/
theorem claim_C5_witness :
    LibraryService.loan_book_to_member
        { inventory := { books := [book2] }, loan_service := { loans := [] },
          notifier := NotificationChannel.email } member2 book2 =
      some ({ inventory := { books := List.erase [book2] book2 },
              loan_service := BasicLoanService.loan_book { loans := [] } member2 book2,
              notifier := NotificationChannel.email }, true) ∧
    book2 ∉ List.erase [book2] book2 ∧
    ∃ l, lookupLoans (BasicLoanService.loan_book { loans := [] } member2 book2).loans
        member2 = some l ∧ book2 ∈ l :=
  claim_C5_loan_moves_book
    { inventory := { books := [book2] }, loan_service := { loans := [] },
      notifier := NotificationChannel.email } member2 book2 (by decide)

/-- C10: when the available sequence contains two or more occurrences of `b`,
a loan to `m` succeeds and removes only the first occurrence: afterwards `b`
is still present in the inventory while also recorded in `m`'s loan
sequence. -/
theorem claim_C10_duplicate_loan_keeps_copy (svc : LibraryService) (m : Member) (b : Book)
    (h : 2 ≤ svc.inventory.books.count b) :
    svc.loan_book_to_member m b =
      some ({ inventory := { books := svc.inventory.books.erase b },
              loan_service := svc.loan_service.loan_book m b,
              notifier := svc.notifier }, true) ∧
    b ∈ (svc.inventory.books.erase b) ∧
    ∃ l, lookupLoans (svc.loan_service.loan_book m b).loans m = some l ∧ b ∈ l := by
  have hmem : b ∈ svc.inventory.books := List.count_pos_iff.mp (by omega)
  refine ⟨loan_book_to_member_of_mem svc m b hmem, ?_, lookupLoans_loan_book _ m b⟩
  have : 1 ≤ (svc.inventory.books.erase b).count b := by
    rw [List.count_erase_self]
    omega
  exact List.count_pos_iff.mp (by omega)

/-- C10 witness: with two copies of `book2`, the loan to Alice leaves one copy
available while the loan is recorded. -/
theorem claim_C10_witness :
    LibraryService.loan_book_to_member
        { inventory := { books := [book2, book2] }, loan_service := { loans := [] },
          notifier := NotificationChannel.email } member1 book2 =
      some ({ inventory := { books := List.erase [book2, book2] book2 },
              loan_service := BasicLoanService.loan_book { loans := [] } member1 book2,
              notifier := NotificationChannel.email }, true) ∧
    book2 ∈ List.erase [book2, book2] book2 ∧
    ∃ l, lookupLoans (BasicLoanService.loan_book { loans := [] } member1 book2).loans
        member1 = some l ∧ book2 ∈ l :=
  claim_C10_duplicate_loan_keeps_copy
    { inventory := { books := [book2, book2] }, loan_service := { loans := [] },
      notifier := NotificationChannel.email } member1 book2 (by decide)

/-! ### Trace-level lemmas -/

theorem hasLoan_iff (svc : BasicLoanService) (m : Member) (b : Book) :
    svc.hasLoan m b = true ↔ ∃ l, lookupLoans svc.loans m = some l ∧ b ∈ l := by
  unfold BasicLoanService.hasLoan
  cases hl : lookupLoans svc.loans m with
  | none => simp
  | some l => simp

theorem step_add_eq (svc : LibraryService) (b : Book) :
    step svc (Op.add b) =
      { svc with inventory := { books := svc.inventory.books ++ [b] } } := rfl

theorem step_loan_of_mem (svc : LibraryService) (m : Member) (b : Book)
    (h : b ∈ svc.inventory.books) :
    step svc (Op.loan m b) =
      { inventory := { books := svc.inventory.books.erase b },
        loan_service := svc.loan_service.loan_book m b,
        notifier := svc.notifier } := by
  simp [step, loan_book_to_member_of_mem svc m b h]

theorem step_loan_of_not_mem (svc : LibraryService) (m : Member) (b : Book)
    (h : b ∉ svc.inventory.books) :
    step svc (Op.loan m b) = svc := by
  simp [step, loan_book_to_member_of_not_mem svc m b h]

theorem step_ret_eq (svc : LibraryService) (m : Member) (b : Book) :
    step svc (Op.ret m b) =
      { svc with inventory := svc.inventory.add_book b,
                 loan_service := (svc.loan_service.return_book m b).1 } := rfl

theorem occ_step_add (svc : LibraryService) (b₀ b : Book) :
    occ (step svc (Op.add b₀)) b = occ svc b + (if b₀ = b then 1 else 0) := by
  rw [step_add_eq]
  simp [occ, List.count_singleton']
  omega

theorem occ_step_loan (svc : LibraryService) (m : Member) (b₀ b : Book) :
    occ (step svc (Op.loan m b₀)) b = occ svc b := by
  by_cases h : b₀ ∈ svc.inventory.books
  · rw [step_loan_of_mem svc m b₀ h]
    unfold occ
    simp only [ledgerCount_loan_book]
    by_cases hbb : b₀ = b
    · subst hbb
      have hpos : 1 ≤ svc.inventory.books.count b₀ := List.count_pos_iff.mpr h
      rw [List.count_erase_self]
      simp
      omega
    · rw [List.count_erase_of_ne (Ne.symm hbb)]
      simp [hbb]
  · rw [step_loan_of_not_mem svc m b₀ h]

theorem occ_step_ret (svc : LibraryService) (m : Member) (b₀ b : Book)
    (h : svc.loan_service.hasLoan m b₀ = true) :
    occ (step svc (Op.ret m b₀)) b = occ svc b := by
  obtain ⟨l, hl, hb⟩ := (hasLoan_iff svc.loan_service m b₀).mp h
  rw [step_ret_eq]
  unfold occ LibraryInventory.add_book
  simp only [List.count_append, List.count_singleton']
  have := ledgerCount_return_book svc.loan_service m b₀ b l hl hb
  by_cases hbb : b₀ = b
  · subst hbb
    simp at this ⊢
    omega
  · simp [hbb] at this ⊢
    omega

theorem run_append (svc : LibraryService) (xs ys : List Op) :
    run svc (xs ++ ys) = run (run svc xs) ys := by
  induction xs generalizing svc with
  | nil => rfl
  | cons op ops ih => simp [run, ih]

theorem goodFrom_append (svc : LibraryService) (xs ys : List Op) :
    goodFrom svc (xs ++ ys) = (goodFrom svc xs && goodFrom (run svc xs) ys) := by
  induction xs generalizing svc with
  | nil => simp [goodFrom, run]
  | cons op ops ih => simp [goodFrom, run, ih, Bool.and_assoc]

theorem invOcc_step (svc : LibraryService) (op : Op) (hok : okOp svc op = true)
    (hinv : ∀ b, occ svc b ≤ 1) : ∀ b, occ (step svc op) b ≤ 1 := by
  intro b
  cases op with
  | add b₀ =>
    rw [occ_step_add]
    by_cases hbb : b₀ = b
    · subst hbb
      have h0 : occ svc b₀ = 0 := by simpa [okOp] using hok
      simp [h0]
    · simp [hbb]
      exact hinv b
  | loan m b₀ =>
    rw [occ_step_loan]
    exact hinv b
  | ret m b₀ =>
    rw [occ_step_ret svc m b₀ b (by simpa [okOp] using hok)]
    exact hinv b

theorem invOcc_run (svc : LibraryService) (ops : List Op)
    (hgood : goodFrom svc ops = true) (hinv : ∀ b, occ svc b ≤ 1) :
    ∀ b, occ (run svc ops) b ≤ 1 := by
  induction ops generalizing svc with
  | nil => exact hinv
  | cons op ops ih =>
    rw [goodFrom, Bool.and_eq_true] at hgood
    exact ih (step svc op) hgood.2 (invOcc_step svc op hgood.1 hinv)

/-- C1 counterexample: the invariant fails on a reachable state. From the
empty system: add `book1`, loan it to Alice, then have Bob "return" it
(a return the ledger rejects, after which the service still restocks).
Afterwards `book1` is in the inventory while still recorded in Alice's loan
sequence. -/
theorem claim_C1_counterexample :
    ¬ (∀ ops : List Op, DisjointInvLedger (run libInit ops)) := by
  intro h
  exact h [Op.add book1, Op.loan member1 book1, Op.ret member2 book1]
    book1 member1 [book1] (by decide) (by decide) (by decide)

/-- C1 (amended): for every reachable state whose history is well-behaved —
each added book is fresh (not currently available or on loan) and each return
is made by a member the ledger records as holding the book — a book present in
the inventory's available sequence is not simultaneously recorded in any
member's loan sequence. -/
theorem claim_C1_invariant_good_traces (ops : List Op)
    (hgood : goodFrom libInit ops = true) :
    DisjointInvLedger (run libInit ops) := by
  intro b m l hb hl hbl
  have hinv : ∀ b', occ (run libInit ops) b' ≤ 1 := by
    refine invOcc_run libInit ops hgood ?_
    intro b'
    simp [occ, libInit, ledgerCount]
  have h1 : 1 ≤ (run libInit ops).inventory.books.count b := List.count_pos_iff.mpr hb
  have h2 : 1 ≤ ledgerCount (run libInit ops).loan_service.loans b :=
    le_trans (List.count_pos_iff.mpr hbl) (count_le_ledgerCount _ m l b hl)
  have := hinv b
  unfold occ at this
  omega

/-- C1 witness: the good trace "add `book1`, add `book2`, loan `book1` to
Alice" reaches a state satisfying the invariant. -/
theorem claim_C1_witness :
    DisjointInvLedger (run libInit [Op.add book1, Op.add book2, Op.loan member1 book1]) :=
  claim_C1_invariant_good_traces [Op.add book1, Op.add book2, Op.loan member1 book1]
    (by decide)

theorem count_stable_of_no_loan (ops : List Op) (svc : LibraryService) (b : Book)
    (hgood : goodFrom svc ops = true) (hnoloan : ∀ m, Op.loan m b ∉ ops)
    (hc : svc.inventory.books.count b = 1)
    (hl : ledgerCount svc.loan_service.loans b = 0) :
    (run svc ops).inventory.books.count b = 1 := by
  induction ops generalizing svc with
  | nil => exact hc
  | cons op ops ih =>
    rw [goodFrom, Bool.and_eq_true] at hgood
    have hnotail : ∀ m, Op.loan m b ∉ ops := fun m hm =>
      hnoloan m (List.mem_cons_of_mem op hm)
    rw [run]
    cases op with
    | add b₀ =>
      have hocc : occ svc b₀ = 0 := by simpa [okOp] using hgood.1
      have hbb : b₀ ≠ b := by
        intro e
        subst e
        unfold occ at hocc
        omega
      refine ih (step svc (Op.add b₀)) hgood.2 hnotail ?_ ?_
      · rw [step_add_eq]
        simp [List.count_singleton', hbb, hc]
      · rw [step_add_eq]
        exact hl
    | loan m₀ b₀ =>
      have hbb : b₀ ≠ b := by
        intro e
        subst e
        exact hnoloan m₀ (List.mem_cons_self _ _)
      by_cases hmem : b₀ ∈ svc.inventory.books
      · refine ih (step svc (Op.loan m₀ b₀)) hgood.2 hnotail ?_ ?_
        · rw [step_loan_of_mem svc m₀ b₀ hmem]
          simpa [List.count_erase_of_ne (Ne.symm hbb)] using hc
        · rw [step_loan_of_mem svc m₀ b₀ hmem]
          simp only [ledgerCount_loan_book]
          simp [hbb, hl]
      · rw [step_loan_of_not_mem svc m₀ b₀ hmem]
        have hg := hgood.2
        rw [step_loan_of_not_mem svc m₀ b₀ hmem] at hg
        exact ih svc hg hnotail hc hl
    | ret m₀ b₀ =>
      have hloan : svc.loan_service.hasLoan m₀ b₀ = true := by
        simpa [okOp] using hgood.1
      obtain ⟨l, hl', hb'⟩ := (hasLoan_iff svc.loan_service m₀ b₀).mp hloan
      have hbb : b₀ ≠ b := by
        intro e
        subst e
        have h1 : 1 ≤ l.count b₀ := List.count_pos_iff.mpr hb'
        have h2 : l.count b₀ ≤ ledgerCount svc.loan_service.loans b₀ :=
          count_le_ledgerCount _ m₀ l b₀ hl'
        omega
      refine ih (step svc (Op.ret m₀ b₀)) hgood.2 hnotail ?_ ?_
      · rw [step_ret_eq]
        simp [LibraryInventory.add_book, List.count_singleton', hbb, hc]
      · rw [step_ret_eq]
        have := ledgerCount_return_book svc.loan_service m₀ b₀ b l hl' hb'
        simp [hbb] at this
        simpa [this] using hl

/-- C9 counterexample: an added book can come to appear twice in the available
sequence without ever being loaned or removed. From the empty system: add
`book1`, then have Bob "return" it (never loaned); the inventory then holds
two copies of `book1`. -/
theorem claim_C9_counterexample :
    ¬ (∀ (b : Book) (ops₁ ops₂ : List Op), (∀ m, Op.loan m b ∉ ops₂) →
        (run libInit (ops₁ ++ Op.add b :: ops₂)).inventory.books.count b = 1) := by
  intro h
  have hc := h book1 [] [Op.ret member2 book1] (by
    intro m hm
    simp at hm)
  exact absurd hc (by decide)

/-- C9 (amended): along a well-behaved history (each added book fresh, each
return backed by a recorded loan), a book added via `add_book_to_inventory`
appears exactly once in the available sequence in every subsequent state in
which it has not been loaned (no loan call for it occurs after the add). -/
theorem claim_C9_added_book_unique (ops₁ ops₂ : List Op) (b : Book)
    (hgood : goodFrom libInit (ops₁ ++ Op.add b :: ops₂) = true)
    (hnoloan : ∀ m, Op.loan m b ∉ ops₂) :
    (run libInit (ops₁ ++ Op.add b :: ops₂)).inventory.books.count b = 1 := by
  rw [goodFrom_append, Bool.and_eq_true] at hgood
  have hg1 := hgood.1
  have hg2 := hgood.2
  rw [show (Op.add b :: ops₂) = [Op.add b] ++ ops₂ from rfl, goodFrom_append,
    Bool.and_eq_true] at hg2
  have hocc : occ (run libInit ops₁) b = 0 := by
    have := hg2.1
    simp [goodFrom, okOp] at this
    exact this
  have hcount0 : (run libInit ops₁).inventory.books.count b = 0 := by
    unfold occ at hocc
    omega
  have hledger0 : ledgerCount (run libInit ops₁).loan_service.loans b = 0 := by
    unfold occ at hocc
    omega
  rw [run_append, show (Op.add b :: ops₂) = [Op.add b] ++ ops₂ from rfl, run_append]
  have hstep : run (run libInit ops₁) [Op.add b] = step (run libInit ops₁) (Op.add b) := rfl
  rw [hstep]
  refine count_stable_of_no_loan ops₂ _ b ?_ hnoloan ?_ ?_
  · have := hg2.2
    rwa [show run (run libInit ops₁) [Op.add b] = step (run libInit ops₁) (Op.add b)
      from rfl] at this
  · rw [step_add_eq]
    simp [hcount0]
  · rw [step_add_eq]
    exact hledger0

/-- C9 witness: along the good trace "add `book1`, add `book2`" (no loan of
`book1` after its add), `book1` appears exactly once in the inventory. -/
theorem claim_C9_witness :
    (run libInit ([] ++ Op.add book1 :: [Op.add book2])).inventory.books.count book1 = 1 :=
  claim_C9_added_book_unique [] [Op.add book2] book1 (by decide) (by
    intro m hm
    simp at hm)
